import Mathlib

/-!
Verification of the ForziumAPI rust engine against its specification.

Shallow embedding of the relevant Rust modules:
* `src/core/rust_engine/compute/tensor_ops.rs` (matmul, simd_matmul, transpose, conv2d)
* `src/core/rust_engine/compute/simd_ops.rs` (matmul_avx2 / matmul_avx512 / matmul_neon,
  optimal_matmul with its scalar fallback)
* `src/core/rust_engine/memory/pool_allocator.rs` (PoolAllocator)
* `src/core/rust_engine/compute/rayon_metrics.rs` (RayonTaskGuard, snapshot, reset)
* `src/core/rust_engine/src/server/http_engine.rs` (parse_pattern, match_route, handle_request)

Modelling conventions:
* `f64` values are modelled as exact rationals `ℚ`; floating-point agreement
  "within tolerance" is settled as exact agreement of the rational-valued
  computations (all paths compute the same rational number).
* Rust `Result<T, ForziumError>` together with the possibility of a panic
  (out-of-bounds indexing / out-of-bounds SIMD load) is modelled by `RRes`:
  `ok`, `error`, or `panic`.
* Machine integers (`u64`/`usize` counters) are modelled as `ℕ` with explicit
  `% 2^64` where the source uses wrapping atomic addition.
* While-loops with a precomputed trip count are embedded as structural
  recursion over that trip count so that concrete runs evaluate by `decide`.
-/

namespace Forzium

/-- Error taxonomy from `src/core/rust_engine/src/error.rs` (`enum ForziumError`). -/
inductive ForziumError where
  | Validation (msg : String)
  | Compute (msg : String)
  | Cancelled (msg : String)
deriving DecidableEq, Repr

/-- Outcome of running a Rust function returning `Result<α, ForziumError>`:
either a value, a returned domain error, or a panic (out-of-bounds access). -/
inductive RRes (α : Type) where
  | ok (val : α)
  | error (e : ForziumError)
  | panic
deriving DecidableEq, Repr

/-- A matrix is a list of rows of rationals (`Vec<Vec<f64>>`). -/
abbrev Matrix := List (List ℚ)

/-- Read entry (r, c) of a matrix; in every embedded loop below the indices are
in range for the validated shapes, so the defaults are never observed there. -/
def mGet (m : Matrix) (r c : ℕ) : ℚ := (m.getD r []).getD c 0

/-- `validate_matrix` from `tensor_ops.rs` lines 7-16: rejects an empty matrix,
a matrix whose first row is empty, and ragged matrices; otherwise returns
`(rows, cols)`. -/
def validate_matrix (m : Matrix) : Except ForziumError (ℕ × ℕ) :=
  if m.isEmpty ∨ (m.headD []).isEmpty then
    .error (.Validation "empty tensor")
  else
    let cols := (m.headD []).length
    if m.any (fun r => r.length ≠ cols) then
      .error (.Validation "ragged tensor")
    else
      .ok (m.length, cols)

/-- `validate_same_shape` from `tensor_ops.rs` lines 18-25. -/
def validate_same_shape (a b : Matrix) : Except ForziumError (ℕ × ℕ) :=
  match validate_matrix a with
  | .error e => .error e
  | .ok (rows_a, cols_a) =>
    match validate_matrix b with
    | .error e => .error e
    | .ok (rows_b, cols_b) =>
      if rows_a ≠ rows_b ∨ cols_a ≠ cols_b then
        .error (.Validation "shape mismatch")
      else
        .ok (rows_a, cols_a)

/-- `transpose` from `tensor_ops.rs` lines 47-56.  The source allocates a
`cols × rows` zero matrix and writes `out[c][r] = m[r][c]` for every `r < rows`
and every `c < row r length`; after `validate_matrix` every row has length
`cols`, so each output cell is written exactly once and the result is the
comprehension below. -/
def transpose (m : Matrix) : Except ForziumError Matrix :=
  match validate_matrix m with
  | .error e => .error e
  | .ok (rows, cols) =>
    .ok ((List.range cols).map (fun c => (List.range rows).map (fun r => mGet m r c)))

/-- Scalar accumulation loop `for k { sum += x(k) * y(k) }` over an explicit
index list, where each read may fail (Rust index panic).  Used with
`List.range' k n` for the loop `while k < n`. -/
def idx_sum (f g : ℕ → Option ℚ) : List ℕ → ℚ → Option ℚ
  | [], s => some s
  | k :: rest, s =>
    match f k, g k with
    | some x, some y => idx_sum f g rest (s + x * y)
    | _, _ => none

/-- A `w`-wide unaligned SIMD load at offset `k`: reads `xs[k .. k+w)`,
faulting (panic / out-of-bounds load) unless `k + w ≤ xs.length`. -/
def load_chunk (xs : List ℚ) (k w : ℕ) : Option (List ℚ) :=
  if k + w ≤ xs.length then some ((xs.drop k).take w) else none

/-- Vectorised dot-product loop shared by the SIMD kernels: `lanes` holds the
`w+1` per-lane accumulators; each iteration loads one chunk from each operand,
multiplies lane-wise and adds into the accumulators (`_mm_mul_pd`/`_mm_add_pd`
resp. the fused `fmadd` variants).  The loop `while k + (w+1) ≤ n` runs exactly
`n / (w+1)` times, which is the structural recursion counter `chunks`; `k` is
the running offset.  After the loop the lanes are summed and the scalar tail
loop `while k < n { sum += x[k]*y[k] }` finishes the reduction. -/
def lanes_loop (w n : ℕ) (xs ys : List ℚ) : (chunks : ℕ) → (k : ℕ) → (lanes : List ℚ) → Option ℚ
  | 0, k, lanes => idx_sum (fun i => xs[i]?) (fun i => ys[i]?) (List.range' k (n - k)) lanes.sum
  | c + 1, k, lanes =>
    match load_chunk xs k (w + 1), load_chunk ys k (w + 1) with
    | some cx, some cy =>
      lanes_loop w n xs ys c (k + (w + 1)) (List.zipWith (· + ·) lanes (List.zipWith (· * ·) cx cy))
    | _, _ => none

/-- SIMD dot product of width `w+1` with loop bound `n` (the caller's
`cols_a`), starting from zeroed lane accumulators. -/
def simd_dot (w n : ℕ) (xs ys : List ℚ) : Option ℚ :=
  lanes_loop w n xs ys (n / (w + 1)) 0 (List.replicate (w + 1) 0)

/-- Row update of `matmul`'s accumulation: `for (j, val_b) in row_b { out_row[j] += val_a * val_b }`.
`validate_matrix b` guarantees `row_b.length = out_row.length = cols_b`, so the
indexed writes are exactly the `zipWith`. -/
def matmul_row (b : Matrix) (cols_b : ℕ) (row_a : List ℚ) : List ℚ :=
  (row_a.zip b).foldl
    (fun out_row p => List.zipWith (fun o val_b => o + p.1 * val_b) out_row p.2)
    (List.replicate cols_b 0)

/-- `matmul` from `tensor_ops.rs` lines 58-79: validates both operands,
requires `cols_a = rows_b`, and accumulates row-major dot products
(`out_row[j] += a[i][k] * b[k][j]`, `k` outer, `j` inner). -/
def matmul (a b : Matrix) : RRes Matrix :=
  match validate_matrix a with
  | .error e => .error e
  | .ok (_rows_a, cols_a) =>
    match validate_matrix b with
    | .error e => .error e
    | .ok (rows_b, cols_b) =>
      if cols_a ≠ rows_b then .error (.Validation "shape mismatch")
      else .ok (a.map (matmul_row b cols_b))

/-- `simd_matmul` from `tensor_ops.rs` lines 81-134: validates, requires
`cols_a = rows_b`, transposes `b` via `transpose`, then computes each cell by
the 2-lane SSE dot-product loop with bound `cols_a` followed by the scalar
tail.  All reads are in range for the validated shapes. -/
def simd_matmul (a b : Matrix) : RRes Matrix :=
  match validate_matrix a with
  | .error e => .error e
  | .ok (_rows_a, cols_a) =>
    match validate_matrix b with
    | .error e => .error e
    | .ok (rows_b, _cols_b) =>
      if cols_a ≠ rows_b then .error (.Validation "shape mismatch")
      else
        match transpose b with
        | .error e => .error e
        | .ok bt =>
          match a.mapM (fun row_a => bt.mapM (fun bt_row => simd_dot 1 cols_a row_a bt_row)) with
          | some rows => .ok rows
          | none => .panic

/-- Transposition loop shared by the `simd_ops.rs` kernels
(`bt[j][i] = b[i][j]` for `i < rows_b`, `j < cols_b`); unlike
`tensor_ops::transpose` it performs no validation, so a ragged `b` makes some
read `b[i][j]` fault. -/
def build_bt (b : Matrix) (rows_b cols_b : ℕ) : Option Matrix :=
  (List.range cols_b).mapM (fun j => (List.range rows_b).mapM (fun i => b[i]?.bind (fun row => row[j]?)))

/-- Shared shape of `matmul_avx2` / `matmul_avx512` / `matmul_neon` from
`simd_ops.rs`: the three source kernels are textually identical except for the
lane width (4, 8 resp. 2 doubles per vector register), which is `w+1` here.
Checks: `rows_a = 0` errors, `rows_b = 0 ∨ b[0].is_empty()` errors,
`cols_a ≠ rows_b` errors; a ragged matrix is NOT rejected and instead faults
in `build_bt` or in the SIMD loads / scalar-tail indexing (`.panic`).
The per-lane partial sums are finally added together (`sum_array[0]+...`,
`_mm512_reduce_add_pd`), which over `ℚ` is the lane sum used by `simd_dot`. -/
def simd_kernel_matmul (w : ℕ) (a b : Matrix) : RRes Matrix :=
  let rows_a := a.length
  if rows_a = 0 then .error (.Validation "empty matrix")
  else
    let cols_a := (a.headD []).length
    let rows_b := b.length
    if rows_b = 0 ∨ (b.headD []).isEmpty then .error (.Validation "empty matrix")
    else
      let cols_b := (b.headD []).length
      if cols_a ≠ rows_b then
        .error (.Validation "incompatible dimensions for matrix multiplication")
      else
        match build_bt b rows_b cols_b with
        | none => .panic
        | some bt =>
          match (List.range rows_a).mapM (fun i =>
                  (List.range cols_b).mapM (fun j =>
                    simd_dot w cols_a (a.getD i []) (bt.getD j []))) with
          | some rows => .ok rows
          | none => .panic

/-- `matmul_avx2` from `simd_ops.rs` lines 89-154 (4 doubles per iteration). -/
def matmul_avx2 (a b : Matrix) : RRes Matrix := simd_kernel_matmul 3 a b

/-- `matmul_avx512` from `simd_ops.rs` lines 160-223 (8 doubles per iteration). -/
def matmul_avx512 (a b : Matrix) : RRes Matrix := simd_kernel_matmul 7 a b

/-- `matmul_neon` from `simd_ops.rs` lines 228-294 (2 doubles per iteration). -/
def matmul_neon (a b : Matrix) : RRes Matrix := simd_kernel_matmul 1 a b

/-- The scalar fallback arm of `optimal_matmul` (`simd_ops.rs` lines 311-345):
checks only `rows_a = 0`, `rows_b = 0` and `cols_a ≠ rows_b` — it accepts a
`b` whose first row is empty, and faults on ragged input at `a[i][k]` or
`b[k][j]`. -/
def optimal_matmul_fallback (a b : Matrix) : RRes Matrix :=
  let rows_a := a.length
  if rows_a = 0 then .error (.Validation "empty matrix")
  else
    let cols_a := (a.headD []).length
    let rows_b := b.length
    if rows_b = 0 then .error (.Validation "empty matrix")
    else
      let cols_b := (b.headD []).length
      if cols_a ≠ rows_b then
        .error (.Validation "incompatible dimensions for matrix multiplication")
      else
        match (List.range rows_a).mapM (fun i =>
                (List.range cols_b).mapM (fun j =>
                  idx_sum (fun k => a[i]?.bind (fun row => row[k]?))
                          (fun k => b[k]?.bind (fun row => row[j]?))
                          (List.range' 0 cols_a) 0)) with
        | some rows => .ok rows
        | none => .panic

/-- Result of `detect_simd_support` relevant to the dispatch in
`optimal_matmul`: the match arms are "avx512f", "avx2", "neon" (on aarch64),
and the wildcard fallback covering "avx", "sse4.2" and "basic". -/
inductive SimdLevel where
  | avx512f | avx2 | neon | basic
deriving DecidableEq, Repr

/-- `optimal_matmul` from `simd_ops.rs` lines 298-347, parameterised by the
CPU feature level returned by `detect_simd_support`. -/
def optimal_matmul (lvl : SimdLevel) (a b : Matrix) : RRes Matrix :=
  match lvl with
  | .avx512f => matmul_avx512 a b
  | .avx2 => matmul_avx2 a b
  | .neon => matmul_neon a b
  | .basic => optimal_matmul_fallback a b

/-- `conv2d` from `tensor_ops.rs` lines 203-253: validates both matrices,
requires the kernel to fit inside the input, and produces the "valid"
convolution.  Each output cell accumulates
`input[r+kr][c+kc] * kernel[kr][kc]` over the kernel window (the x86 branch
uses a 2-lane load plus scalar tail, which over `ℚ` is the same sum; all reads
are in range for the validated shapes). -/
def conv2d (input kernel : Matrix) : RRes Matrix :=
  match validate_matrix input with
  | .error e => .error e
  | .ok (rows, cols) =>
    match validate_matrix kernel with
    | .error e => .error e
    | .ok (krows, kcols) =>
      if rows < krows ∨ cols < kcols then
        .error (.Validation "kernel larger than input")
      else
        let out_rows := rows - krows + 1
        let out_cols := cols - kcols + 1
        .ok ((List.range out_rows).map (fun r => (List.range out_cols).map (fun c =>
          ∑ kr ∈ Finset.range krows, ∑ kc ∈ Finset.range kcols,
            mGet input (r + kr) (c + kc) * mGet kernel kr kc)))

/-! ## Pool allocator (`memory/pool_allocator.rs`)

Sequential (single caller) model: with no concurrent callers `try_lock` always
succeeds on the first attempt, so the retry/backoff path of `allocate` and the
block-dropping path of `deallocate` are not taken and `retries = 0`.
`last_alloc_time` (wall-clock seconds, `f64`) is omitted: no claim concerns it
and real time is outside the embedding. -/

/-- A byte block (`Vec<u8>`); entries are byte values. -/
abbrev Block := List ℕ

/-- `PoolStats` from `pool_allocator.rs` lines 12-27 (without the wall-clock
`last_alloc_time` field). -/
structure PoolStats where
  capacity : ℕ
  used : ℕ
  alloc_count : ℕ
  dealloc_count : ℕ
  contention_count : ℕ
  peak_usage : ℕ
deriving DecidableEq, Repr

/-- `PoolAllocator` state (lines 32-40): fixed capacity, used-bytes counter,
peak counter, FIFO reuse queue of returned blocks (`VecDeque`, front at the
list head), and the stats snapshot struct. -/
structure PoolAllocator where
  capacity : ℕ
  used : ℕ
  peak_usage : ℕ
  blocks : List Block
  stats : PoolStats
deriving DecidableEq, Repr

/-- `PoolAllocator::new` (lines 44-62). -/
def PoolAllocator.new (capacity : ℕ) : PoolAllocator :=
  { capacity := capacity, used := 0, peak_usage := 0, blocks := []
    stats := { capacity := capacity, used := 0, alloc_count := 0, dealloc_count := 0
               contention_count := 0, peak_usage := 0 } }

/-- `PoolAllocator::allocate` (lines 65-124), sequential: if
`used + size > capacity` return `None` immediately (state unchanged);
otherwise `used += size`, raise the peak if exceeded, reuse the front block of
the queue — growing it with zeros via `resize(size, 0)` when it is smaller
than `size`, never truncating — or create a fresh zero-filled block, and
update the stats (`contention_count += 0` since no retries happen
sequentially).  Returns the block and the successor state. -/
def PoolAllocator.allocate (p : PoolAllocator) (size : ℕ) : Option Block × PoolAllocator :=
  if p.used + size > p.capacity then (none, p)
  else
    let used := p.used + size
    let peak := if used > p.peak_usage then used else p.peak_usage
    let block := match p.blocks with
      | [] => List.replicate size 0
      | b :: _ => if b.length < size then b ++ List.replicate (size - b.length) 0 else b
    let rest := p.blocks.tail
    (some block,
      { p with
        used := used, peak_usage := peak, blocks := rest
        stats := { p.stats with
                     used := used, alloc_count := p.stats.alloc_count + 1
                     peak_usage := peak } })

/-- `PoolAllocator::deallocate` (lines 127-149), sequential: `used` decreases
by the full block length with saturation at zero (Nat subtraction), the block
is pushed to the back of the reuse queue, and the stats record the new `used`
and the incremented deallocation count. -/
def PoolAllocator.deallocate (p : PoolAllocator) (block : Block) : PoolAllocator :=
  let used := p.used - block.length
  { p with
    used := used, blocks := p.blocks ++ [block]
    stats := { p.stats with used := used, dealloc_count := p.stats.dealloc_count + 1 } }

/-- `PoolAllocator::available` (lines 152-154). -/
def PoolAllocator.available (p : PoolAllocator) : ℕ := p.capacity - p.used

/-- One sequential call against the pool: an allocation request of a given
size, or the return of a block. -/
inductive PoolOp where
  | alloc (size : ℕ)
  | dealloc (block : Block)
deriving DecidableEq, Repr

/-- State after one call (the allocation result itself is dropped). -/
def PoolAllocator.step (p : PoolAllocator) : PoolOp → PoolAllocator
  | .alloc size => (p.allocate size).2
  | .dealloc b => p.deallocate b

/-- State after a sequence of sequential calls. -/
def PoolAllocator.run (p : PoolAllocator) (ops : List PoolOp) : PoolAllocator :=
  ops.foldl PoolAllocator.step p

/-- Runs the calls while tracking the highest value the `used` counter ever
reached (specification-side observer for the peak-usage claim). -/
def PoolAllocator.run_with_max (p : PoolAllocator) (m : ℕ) (ops : List PoolOp) : ℕ × PoolAllocator :=
  ops.foldl (fun acc op => let q := acc.2.step op; (max acc.1 q.used, q)) (m, p)

/-! ## Rayon concurrency metrics (`compute/rayon_metrics.rs`)

Sequential model of the process-wide atomic counter set: counters are `ℕ`
with explicit wrapping `% 2^64` where the source uses `fetch_add`/`fetch_sub`
on `AtomicU64`/`AtomicUsize` (64-bit platform).  `Instant` timestamps are
abstract nanosecond counts supplied as parameters. -/

/-- Modulus of the 64-bit counters: 2^64 (written as a literal so that
definitional unfolding stays cheap). -/
abbrev U64MOD : ℕ := 18446744073709551616

/-- `u64::MAX` = 2^64 - 1, the sentinel of the min-task-time register and the
wrapping decrement added by `fetch_sub(1)`. -/
abbrev U64MAX : ℕ := 18446744073709551615

/-- Counter state of `struct RayonMetrics` (lines 145-155). -/
structure RayonMetrics where
  active_workers : ℕ
  max_active_workers : ℕ
  max_threads_observed : ℕ
  tasks_started : ℕ
  tasks_completed : ℕ
  busy_time_nanos : ℕ
  max_task_time_nanos : ℕ
  min_task_time_nanos : ℕ
  observation_start : ℕ
deriving DecidableEq, Repr

/-- `RayonMetrics::default` (lines 157-171): all counters zero,
`min_task_time_nanos` at the `u64::MAX` sentinel, window starting now. -/
def RayonMetrics.init (now : ℕ) : RayonMetrics :=
  { active_workers := 0, max_active_workers := 0, max_threads_observed := 0
    tasks_started := 0, tasks_completed := 0, busy_time_nanos := 0
    max_task_time_nanos := 0, min_task_time_nanos := U64MAX
    observation_start := now }

/-- `RayonTaskGuard::new` (lines 22-34): records the observed thread count
when positive, increments the active-worker count, tracks its maximum, and
counts the task start. -/
def RayonTaskGuard.new (m : RayonMetrics) (total_threads : ℕ) : RayonMetrics :=
  let active := (m.active_workers + 1) % U64MOD
  { m with
    max_threads_observed :=
      if total_threads > 0 then max m.max_threads_observed total_threads
      else m.max_threads_observed
    active_workers := active
    max_active_workers := max m.max_active_workers active
    tasks_started := (m.tasks_started + 1) % U64MOD }

/-- `Drop for RayonTaskGuard` (lines 37-49): `nanos` is the clamped elapsed
time (`duration_to_nanos`); busy time accumulates, the max/min task-time
extrema are updated, the completion is counted and the active-worker count is
decremented (`fetch_sub`, wrapping). -/
def RayonTaskGuard.drop (m : RayonMetrics) (nanos : ℕ) : RayonMetrics :=
  let nanos := min nanos (U64MAX)
  { m with
    busy_time_nanos := (m.busy_time_nanos + nanos) % U64MOD
    max_task_time_nanos := max m.max_task_time_nanos nanos
    min_task_time_nanos := min m.min_task_time_nanos nanos
    tasks_completed := (m.tasks_completed + 1) % U64MOD
    active_workers := (m.active_workers + (U64MAX)) % U64MOD }

/-- One whole task: guard created then dropped (no overlap), with the observed
thread count and the task duration as parameters. -/
def RayonMetrics.run_guard (m : RayonMetrics) (p : ℕ × ℕ) : RayonMetrics :=
  RayonTaskGuard.drop (RayonTaskGuard.new m p.1) p.2

/-- N sequential non-overlapping task guards. -/
def RayonMetrics.run_guards (m : RayonMetrics) (ps : List (ℕ × ℕ)) : RayonMetrics :=
  ps.foldl RayonMetrics.run_guard m

/-- `RayonMetricsError` (lines 138-143). -/
inductive RayonMetricsError where
  | ActiveWorkers (n : ℕ)
deriving DecidableEq, Repr

/-- `RayonPoolSnapshot` (lines 52-78); `f64` fields are modelled as exact
rationals. -/
structure RayonPoolSnapshot where
  observed_threads : ℕ
  max_active_threads : ℕ
  mean_active_threads : ℚ
  utilization_percent : ℚ
  peak_saturation : ℚ
  total_tasks_started : ℕ
  total_tasks_completed : ℕ
  mean_task_duration_us : ℚ
  max_task_duration_us : ℚ
  min_task_duration_us : ℚ
  busy_time_seconds : ℚ
  observation_seconds : ℚ
deriving DecidableEq, Repr

/-- `RayonPoolSnapshot::from_metrics` (lines 81-134); `now` supplies the
current instant for `observation_elapsed`. -/
def RayonPoolSnapshot.from_metrics (m : RayonMetrics) (now : ℕ) : RayonPoolSnapshot :=
  let observed_threads := max m.max_threads_observed 1
  let elapsed_secs : ℚ := ((now - m.observation_start : ℕ) : ℚ) / 1000000000
  let busy_secs : ℚ := (m.busy_time_nanos : ℚ) / 1000000000
  let mean_active_threads := if elapsed_secs > 0 then busy_secs / elapsed_secs else 0
  { observed_threads := observed_threads
    max_active_threads := m.max_active_workers
    mean_active_threads := mean_active_threads
    utilization_percent := (mean_active_threads / (observed_threads : ℚ)) * 100
    peak_saturation := (m.max_active_workers : ℚ) / (observed_threads : ℚ)
    total_tasks_started := m.tasks_started
    total_tasks_completed := m.tasks_completed
    mean_task_duration_us :=
      if m.tasks_completed > 0 then
        ((m.busy_time_nanos : ℚ) / (m.tasks_completed : ℚ)) / 1000
      else 0
    max_task_duration_us := (m.max_task_time_nanos : ℚ) / 1000
    min_task_duration_us :=
      if m.tasks_completed > 0 ∧ m.min_task_time_nanos ≠ U64MAX then
        (m.min_task_time_nanos : ℚ) / 1000
      else 0
    busy_time_seconds := busy_secs
    observation_seconds := elapsed_secs }

/-- `RayonMetrics::reset_unchecked` (lines 185-201): zeroes every counter,
restores the `u64::MAX` sentinel of the min-tracking register, and restarts
the observation window; the active-worker count is not touched. -/
def RayonMetrics.reset_unchecked (m : RayonMetrics) (now : ℕ) : RayonMetrics :=
  { active_workers := m.active_workers, max_active_workers := 0
    max_threads_observed := 0, tasks_started := 0, tasks_completed := 0,
    busy_time_nanos := 0, max_task_time_nanos := 0
    min_task_time_nanos := U64MAX, observation_start := now }

/-- `reset_metrics` (lines 228-236). -/
def reset_metrics (m : RayonMetrics) (now : ℕ) : Except RayonMetricsError RayonMetrics :=
  if m.active_workers ≠ 0 then .error (.ActiveWorkers m.active_workers)
  else .ok (m.reset_unchecked now)

/-- `snapshot_and_reset` (lines 216-225). -/
def snapshot_and_reset (m : RayonMetrics) (now : ℕ) :
    Except RayonMetricsError (RayonPoolSnapshot × RayonMetrics) :=
  if m.active_workers ≠ 0 then .error (.ActiveWorkers m.active_workers)
  else .ok (RayonPoolSnapshot.from_metrics m now, m.reset_unchecked now)

/-! ## HTTP engine routing (`src/server/http_engine.rs`)

The network transport, hyper framing, timeouts and the Python handler
invocation (`call_handler`) are external collaborators; the handler is
modelled as an abstract function from its registry index and the captured
parameters to a response.  JSON bodies built through `json_response` are kept
as a JSON AST (`serde_json::Value`); the health fallback body is the literal
byte string from the source. -/

/-- `enum ParamType` (lines 36-39). -/
inductive ParamType where
  | int | str
deriving DecidableEq, Repr

/-- `enum Segment` (lines 25-32). -/
inductive Segment where
  | Static (s : String)
  | Param (name : String) (ty : ParamType)
deriving DecidableEq, Repr

/-- Rust `str::trim_matches('/')`: strips leading and trailing slashes. -/
def trimSlashes (s : String) : String :=
  ⟨((s.toList.dropWhile (· = '/')).reverse.dropWhile (· = '/')).reverse⟩

/-- Rust `str::split(sep)` on the character list (`acc` is the current chunk,
reversed): splits at every separator, keeping empty chunks, never dropping a
trailing empty chunk — exactly Rust's iterator semantics. -/
def split_chars (sep : Char) : List Char → List Char → List (List Char)
  | [], acc => [acc.reverse]
  | c :: rest, acc =>
    if c = sep then acc.reverse :: split_chars sep rest []
    else split_chars sep rest (c :: acc)

/-- Rust `str::split(sep)` for a one-character separator. -/
def rust_split (sep : Char) (s : String) : List String :=
  (split_chars sep s.toList []).map (fun cs => String.mk cs)

/-- Rust `i64::from_str`: optional sign, one or more ASCII digits, in-range
for a signed 64-bit integer. -/
def parse_i64 (s : String) : Option ℤ :=
  let chars := s.toList
  let signDigits : ℤ × List Char :=
    match chars with
    | '+' :: rest => (1, rest)
    | '-' :: rest => (-1, rest)
    | _ => (1, chars)
  if signDigits.2.isEmpty ∨ signDigits.2.any (fun c => ¬ c.isDigit) then none
  else
    let mag : ℕ := signDigits.2.foldl (fun acc c => acc * 10 + (c.toNat - '0'.toNat)) 0
    let v : ℤ := signDigits.1 * mag
    if v < -(2 ^ 63) ∨ v > 2 ^ 63 - 1 then none else some v

/-- One segment of `parse_pattern` (lines 444-468): empty segments are
skipped; `\x7bname\x7d` is a string capture, `\x7bname:int\x7d` an integer
capture (any other suffix after the colon is treated as a string capture);
everything else is a literal.  `none` is the unreachable `PyValueError`
branch (`split(':')` always yields a first part). -/
def parse_segment (seg : String) : Option (List Segment) :=
  if seg = "" then some []
  else if seg.toList.head? = some '\x7b' ∧ seg.toList.getLast? = some '\x7d' then
    let inner := String.mk ((seg.toList.drop 1).dropLast)
    match rust_split ':' inner with
    | [] => none
    | name :: rest =>
      let ty := match rest.head? with
        | some "int" => ParamType.int
        | _ => ParamType.str
      some [Segment.Param name ty]
  else some [Segment.Static seg]

/-- `parse_pattern` (lines 444-468). -/
def parse_pattern (path : String) : Option (List Segment) :=
  ((rust_split '/' (trimSlashes path)).mapM parse_segment).map List.flatten

/-- `struct PathValidationError` (lines 437-441). -/
structure PathValidationError where
  loc : List String
  msg : String
  typ : String
deriving DecidableEq, Repr

/-- `enum Match` (lines 430-434). -/
inductive MatchResult where
  | Ok (params : List String)
  | ValidationError (errors : List PathValidationError)
  | Miss
deriving DecidableEq, Repr

/-- Loop body of `match_route`: walks the zipped pattern/path segments,
returning `Miss` on the first literal mismatch, collecting the captured
parameters and the typed-capture validation errors. -/
def match_route_go : List (Segment × String) → List String → List PathValidationError → MatchResult
  | [], params, errors =>
    if errors.isEmpty then .Ok params else .ValidationError errors
  | (seg, part) :: rest, params, errors =>
    match seg with
    | .Static s => if s ≠ part then .Miss else match_route_go rest params errors
    | .Param name ty =>
      match ty with
      | .int =>
        if (parse_i64 part).isNone then
          match_route_go rest params
            (errors ++ [{ loc := ["path", name]
                          msg := "value is not a valid integer"
                          typ := "type_error.integer" }])
        else
          match_route_go rest (params ++ [part]) errors
      | .str => match_route_go rest (params ++ [part]) errors

/-- `match_route` (lines 472-506). -/
def match_route (pattern : List Segment) (path : List String) : MatchResult :=
  if pattern.length ≠ path.length then .Miss
  else match_route_go (pattern.zip path) [] []

/-- JSON values (`serde_json::Value`, restricted to the shapes the engine
emits). -/
inductive Json where
  | str (s : String)
  | num (n : ℤ)
  | arr (xs : List Json)
  | obj (fields : List (String × Json))

/-- Response body: either raw bytes/text written directly (the health
fallback literal) or a serialised JSON document. -/
inductive RespBody where
  | raw (s : String)
  | json (j : Json)

/-- Wire response: status code, content type, body. -/
structure HttpResponse where
  status : ℕ
  content_type : String
  body : RespBody

/-- `json_response` (lines 508-522): a response with the given status, a JSON
content type, and the serialised value as body. -/
def json_response (status : ℕ) (body : Json) : HttpResponse :=
  { status := status, content_type := "application/json", body := .json body }

/-- A registered route: parsed pattern plus the handler reference
(`Py<PyAny>`, modelled as an opaque registry index). -/
structure RouteEntry where
  pattern : List Segment
  handler : ℕ
deriving DecidableEq, Repr

/-- The `detail` array built from path-validation errors in `handle_request`
(lines 399-411). -/
def validation_detail (errors : List PathValidationError) : Json :=
  .obj [("detail", .arr (errors.map (fun err =>
    .obj [("loc", .arr (err.loc.map .str)), ("msg", .str err.msg), ("type", .str err.typ)])))]

/-- Route-matching loop of `handle_request` (lines 380-415): the first route
whose match is not `Miss` decides the response — a handler invocation on
`Ok`, a 422 with the structured detail on `ValidationError`. -/
def dispatch_loop (call_handler : ℕ → List String → HttpResponse) :
    List RouteEntry → List String → Option HttpResponse
  | [], _ => none
  | r :: rest, segs =>
    match match_route r.pattern segs with
    | .Ok params => some (call_handler r.handler params)
    | .ValidationError errors => some (json_response 422 (validation_detail errors))
    | .Miss => dispatch_loop call_handler rest segs

/-- `handle_request` (lines 350-426) for a request with the given method
(`is_get`), raw path, and the route table entry for that method
(`routes.get(&method).cloned()`): split the path into non-empty segments, try
the registered routes in order, then the GET fallback endpoints `/health`,
`/ready`, `/live` (compared against the raw path) with body
`\x7b"status":"ok"\x7d`, else 404. -/
def handle_request (call_handler : ℕ → List String → HttpResponse)
    (routes_for_method : Option (List RouteEntry)) (is_get : Bool) (path : String) :
    HttpResponse :=
  let path_segments := (rust_split '/' (trimSlashes path)).filter (fun s => s ≠ "")
  let routed := match routes_for_method with
    | some rs => dispatch_loop call_handler rs path_segments
    | none => none
  match routed with
  | some resp => resp
  | none =>
    if is_get ∧ (path = "/health" ∨ path = "/ready" ∨ path = "/live") then
      { status := 200, content_type := "application/json"
        body := .raw "\x7b\"status\":\"ok\"\x7d" }
    else
      json_response 404 (.obj [("detail", .str "not found")])

/-! ## General facts about the embedding -/

lemma getD_map_range {α : Type} (f : ℕ → α) {i n : ℕ} (h : i < n) (d : α) :
    ((List.range n).map f).getD i d = f i := by
  rw [List.getD_eq_getElem _ _ (by simpa using h)]
  simp

lemma validate_matrix_ok {m : Matrix} {r c : ℕ}
    (h : validate_matrix m = .ok (r, c)) :
    r = m.length ∧ 0 < m.length ∧ 0 < c ∧ ∀ row ∈ m, row.length = c := by
  unfold validate_matrix at h
  by_cases h1 : m.isEmpty ∨ (m.headD []).isEmpty
  · rw [if_pos h1] at h
    exact Except.noConfusion h
  · rw [if_neg h1] at h
    by_cases h2 : m.any (fun row => row.length ≠ (m.headD []).length)
    · rw [if_pos h2] at h
      exact Except.noConfusion h
    · rw [if_neg h2] at h
      rw [Except.ok.injEq, Prod.mk.injEq] at h
      obtain ⟨hr, hc⟩ := h
      push_neg at h1
      obtain ⟨hne, hhead⟩ := h1
      have hmnil : m ≠ [] := by
        intro hnil; rw [hnil] at hne; simp at hne
      rw [Bool.not_eq_true, List.any_eq_false] at h2
      refine ⟨hr.symm, List.length_pos.mpr hmnil, ?_, ?_⟩
      · rw [← hc]
        have hd : (m.headD []) ≠ [] := by
          intro hnil; rw [hnil] at hhead; simp at hhead
        exact List.length_pos.mpr hd
      · intro row hrow
        rw [← hc]
        simpa using h2 row hrow

lemma matrix_ext_map_range (m : Matrix) (c : ℕ) (hrows : ∀ row ∈ m, row.length = c)
    (F : ℕ → ℕ → ℚ) (hF : ∀ i j, i < m.length → j < c → F i j = mGet m i j) :
    (List.range m.length).map (fun i => (List.range c).map (fun j => F i j)) = m := by
  apply List.ext_getElem
  · simp
  · intro i hi1 hi2
    simp only [List.getElem_map, List.getElem_range]
    apply List.ext_getElem
    · simp [hrows _ (m.getElem_mem hi2)]
    · intro j hj1 hj2
      simp only [List.getElem_map, List.getElem_range]
      have hj : j < c := by simpa using hj1
      rw [hF i j hi2 hj]
      unfold mGet
      rw [List.getD_eq_getElem _ _ hi2, List.getD_eq_getElem _ _ hj2]

lemma validate_matrix_mk {m : Matrix} {c : ℕ} (hm : m ≠ []) (hc : 0 < c)
    (hall : ∀ row ∈ m, row.length = c) :
    validate_matrix m = .ok (m.length, c) := by
  have hmem : m.headD [] ∈ m := by
    cases m with
    | nil => exact absurd rfl hm
    | cons a l => exact List.mem_cons_self a l
  have hhead : (m.headD []).length = c := hall _ hmem
  have hheadne : ¬ (m.headD []).isEmpty := by
    simp only [List.isEmpty_iff]
    intro hnil
    rw [hnil] at hhead
    simp at hhead
    omega
  unfold validate_matrix
  rw [if_neg, if_neg]
  · rw [hhead]
  · rw [Bool.not_eq_true, List.any_eq_false]
    intro row hrow
    rw [hall row hrow]
    have hhead2 : ((m.head?).getD []).length = c := by simpa using hhead
    simp [hhead2]
  · push_neg
    exact ⟨by simp [List.isEmpty_iff, hm], hheadne⟩

/-! ## C9: transpose shape and involution -/

/-- C9: for every non-empty rectangular matrix M (here: one accepted by
`validate_matrix` with shape (r, c)), `transpose` succeeds, the output has
shape (c, r), and transposing twice gives back M. -/
theorem transpose_shape_and_involution (m : Matrix) (r c : ℕ)
    (h : validate_matrix m = .ok (r, c)) :
    ∃ t, transpose m = .ok t ∧ t.length = c ∧ (∀ row ∈ t, row.length = r) ∧
      transpose t = .ok m := by
  obtain ⟨hr, hrpos, hcpos, hrows⟩ := validate_matrix_ok h
  subst hr
  set t : Matrix :=
    (List.range c).map (fun cc => (List.range m.length).map (fun rr => mGet m rr cc)) with ht
  have htrans : transpose m = .ok t := by
    unfold transpose
    rw [h]
  have htlen : t.length = c := by simp [ht]
  have htrows : ∀ row ∈ t, row.length = m.length := by
    intro row hrow
    simp only [ht, List.mem_map] at hrow
    obtain ⟨cc, _, hcc⟩ := hrow
    simp [← hcc]
  refine ⟨t, htrans, htlen, htrows, ?_⟩
  have hvt : validate_matrix t = .ok (t.length, m.length) :=
    validate_matrix_mk (by simp [ht]; omega) hrpos htrows
  have htt : transpose t =
      .ok ((List.range m.length).map (fun cc => (List.range c).map (fun rr => mGet t rr cc))) := by
    simp only [transpose, hvt, htlen]
  rw [htt]
  congr 1
  apply matrix_ext_map_range m c hrows
  intro i j hi hj
  show mGet t j i = mGet m i j
  unfold mGet
  rw [ht, getD_map_range _ hj, getD_map_range _ hi]
  rfl

/-- Witness for C9 at a concrete 1×3 matrix. -/
theorem transpose_shape_and_involution_witness :
    validate_matrix [[1, 2, 3]] = .ok (1, 3) ∧
    ∃ t, transpose [[(1 : ℚ), 2, 3]] = .ok t ∧ t.length = 3 ∧
      (∀ row ∈ t, row.length = 1) ∧ transpose t = .ok [[1, 2, 3]] :=
  ⟨rfl, transpose_shape_and_involution [[1, 2, 3]] 1 3 rfl⟩

/-! ## C6: conv2d output shape and validation -/

/-- C6: for non-empty rectangular input and kernel, if the kernel fits inside
the input then `conv2d` succeeds with output shape
`(rows_in - rows_k + 1) × (cols_in - cols_k + 1)`; if the kernel is larger in
either dimension, it fails with a Validation error. -/
theorem conv2d_shape_and_validation (input kernel : Matrix) (ri ci rk ck : ℕ)
    (hi : validate_matrix input = .ok (ri, ci))
    (hk : validate_matrix kernel = .ok (rk, ck)) :
    (rk ≤ ri ∧ ck ≤ ci →
      ∃ out, conv2d input kernel = .ok out ∧
        out.length = ri - rk + 1 ∧ ∀ row ∈ out, row.length = ci - ck + 1) ∧
    (ri < rk ∨ ci < ck →
      conv2d input kernel = .error (.Validation "kernel larger than input")) := by
  constructor
  · rintro ⟨h1, h2⟩
    have hconv : conv2d input kernel =
        .ok ((List.range (ri - rk + 1)).map (fun r => (List.range (ci - ck + 1)).map (fun c =>
          ∑ kr ∈ Finset.range rk, ∑ kc ∈ Finset.range ck,
            mGet input (r + kr) (c + kc) * mGet kernel kr kc))) := by
      simp only [conv2d, hi, hk]
      rw [if_neg (by omega)]
    refine ⟨_, hconv, by simp, ?_⟩
    intro row hrow
    simp only [List.mem_map] at hrow
    obtain ⟨rr, _, hrr⟩ := hrow
    simp [← hrr]
  · intro h1
    simp only [conv2d, hi, hk]
    rw [if_pos h1]

/-- Witness for C6: 3×3 input with a 2×2 kernel gives a 2×2 output. -/
theorem conv2d_shape_and_validation_witness :
    ∃ out, conv2d [[1, 2, 3], [4, 5, 6], [7, 8, 9]] [[1, 0], [0, 1]] = .ok out ∧
      out.length = 2 ∧ ∀ row ∈ out, row.length = 2 :=
  (conv2d_shape_and_validation [[1, 2, 3], [4, 5, 6], [7, 8, 9]] [[1, 0], [0, 1]]
    3 3 2 2 rfl rfl).1 (by omega)

/-! ## C2, C7, C10: pool allocator -/

lemma PoolAllocator.allocate_fst_none_iff (p : PoolAllocator) (size : ℕ) :
    (p.allocate size).1 = none ↔ p.capacity < p.used + size := by
  unfold allocate
  split
  next hc => simpa using hc
  next hc => simpa using hc

lemma PoolAllocator.step_capacity (p : PoolAllocator) (op : PoolOp) :
    (p.step op).capacity = p.capacity := by
  cases op with
  | alloc size =>
    simp only [step, allocate]
    split <;> rfl
  | dealloc b => rfl

lemma PoolAllocator.run_capacity (ops : List PoolOp) :
    ∀ p : PoolAllocator, (p.run ops).capacity = p.capacity := by
  induction ops with
  | nil => intro p; rfl
  | cons op rest ih =>
    intro p
    show ((p.step op).run rest).capacity = p.capacity
    rw [ih, step_capacity]

lemma PoolAllocator.step_used_le (p : PoolAllocator) (op : PoolOp)
    (h : p.used ≤ p.capacity) : (p.step op).used ≤ p.capacity := by
  cases op with
  | alloc size =>
    simp only [step, allocate]
    split
    next hc => exact h
    next hc => simp at hc ⊢; omega
  | dealloc b =>
    show p.used - b.length ≤ p.capacity
    omega

lemma PoolAllocator.run_used_le (ops : List PoolOp) :
    ∀ p : PoolAllocator, p.used ≤ p.capacity → (p.run ops).used ≤ p.capacity := by
  induction ops with
  | nil => intro p h; exact h
  | cons op rest ih =>
    intro p h
    show ((p.step op).run rest).used ≤ p.capacity
    have := ih (p.step op) (by rw [step_capacity]; exact step_used_le p op h)
    rwa [step_capacity] at this

/-- C2: over every sequence of sequential allocate/deallocate calls on a pool
of capacity C, the used counter never exceeds C; at any reachable state an
allocation returns None exactly when `used + size > C` and otherwise returns a
block, and deallocation decrements `used` by the block's length, saturating at
zero (ℕ subtraction). -/
theorem pool_allocator_capacity_claims (C : ℕ) (ops : List PoolOp) :
    ((PoolAllocator.new C).run ops).used ≤ C ∧
    (∀ size, ((((PoolAllocator.new C).run ops).allocate size).1 = none ↔
      C < ((PoolAllocator.new C).run ops).used + size)) ∧
    (∀ size, ((PoolAllocator.new C).run ops).used + size ≤ C →
      ∃ blk, (((PoolAllocator.new C).run ops).allocate size).1 = some blk) ∧
    (∀ b, (((PoolAllocator.new C).run ops).deallocate b).used =
      ((PoolAllocator.new C).run ops).used - b.length) := by
  have hcap : ((PoolAllocator.new C).run ops).capacity = C :=
    PoolAllocator.run_capacity ops (PoolAllocator.new C)
  have hused : ((PoolAllocator.new C).run ops).used ≤ C :=
    PoolAllocator.run_used_le ops (PoolAllocator.new C) (by simp [PoolAllocator.new])
  refine ⟨hused, ?_, ?_, ?_⟩
  · intro size
    rw [PoolAllocator.allocate_fst_none_iff, hcap]
  · intro size hsz
    cases hopt : (((PoolAllocator.new C).run ops).allocate size).1 with
    | none =>
      rw [PoolAllocator.allocate_fst_none_iff, hcap] at hopt
      omega
    | some blk => exact ⟨blk, rfl⟩
  · intro b; rfl

/-- Witness for C2 at capacity 32 after two 8-byte allocations. -/
theorem pool_allocator_capacity_claims_witness :
    ((PoolAllocator.new 32).run [.alloc 8, .alloc 8]).used ≤ 32 ∧
    ((((PoolAllocator.new 32).run [.alloc 8, .alloc 8]).allocate 40).1 = none ↔
      32 < ((PoolAllocator.new 32).run [.alloc 8, .alloc 8]).used + 40) ∧
    (∃ blk, (((PoolAllocator.new 32).run [.alloc 8, .alloc 8]).allocate 16).1 = some blk) := by
  obtain ⟨h1, h2, h3, _⟩ := pool_allocator_capacity_claims 32 [.alloc 8, .alloc 8]
  exact ⟨h1, h2 40, h3 16 (by decide)⟩

lemma PoolAllocator.step_peak (p : PoolAllocator) (op : PoolOp) (m : ℕ)
    (h1 : p.stats.peak_usage = p.peak_usage) (h2 : p.peak_usage = m) (h3 : p.used ≤ m) :
    (p.step op).stats.peak_usage = (p.step op).peak_usage ∧
    (p.step op).peak_usage = max m (p.step op).used ∧
    (p.step op).used ≤ max m (p.step op).used := by
  refine ⟨?_, ?_, le_max_right _ _⟩
  · cases op with
    | alloc size =>
      simp only [step, allocate]
      split
      next => exact h1
      next => rfl
    | dealloc b => exact h1
  · cases op with
    | alloc size =>
      simp only [step, allocate]
      split
      next hc =>
        show p.peak_usage = max m p.used
        omega
      next hc =>
        simp only
        rw [h2]
        split <;> omega
    | dealloc b =>
      show p.peak_usage = max m (p.used - b.length)
      omega

lemma PoolAllocator.peak_invariant (ops : List PoolOp) :
    ∀ (p : PoolAllocator) (m : ℕ),
    p.stats.peak_usage = p.peak_usage → p.peak_usage = m → p.used ≤ m →
    (p.run ops).stats.peak_usage = (p.run_with_max m ops).1 := by
  induction ops with
  | nil =>
    intro p m h1 h2 _
    exact h1.trans h2
  | cons op rest ih =>
    intro p m h1 h2 h3
    show ((p.step op).run rest).stats.peak_usage =
      ((p.step op).run_with_max (max m (p.step op).used) rest).1
    obtain ⟨g1, g2, g3⟩ := PoolAllocator.step_peak p op m h1 h2 h3
    exact ih (p.step op) (max m (p.step op).used) g1 g2 g3

/-- C7: after any sequence of sequential calls, `stats().peak_usage` equals
the highest value the used counter ever reached (tracked by `run_with_max`,
starting from the initial `used = 0`), and in particular the spec's concrete
scenario — allocate 400 and 400, deallocate one block — leaves it at 800. -/
theorem pool_peak_usage_high_water (C : ℕ) (ops : List PoolOp) :
    ((PoolAllocator.new C).run ops).stats.peak_usage =
      ((PoolAllocator.new C).run_with_max 0 ops).1 ∧
    ((PoolAllocator.new 1000).run [.alloc 400, .alloc 400,
        .dealloc (List.replicate 400 0)]).stats.peak_usage = 800 := by
  refine ⟨PoolAllocator.peak_invariant ops (PoolAllocator.new C) 0 rfl rfl (le_refl 0), ?_⟩
  decide

/-- C10: a successful allocation with an empty reuse queue returns a fresh
zero-filled block of exactly the requested size; with a queued block at the
front, the block is reused — padded with zeros up to `size` if smaller, never
truncated, so its length is `max blk.length size` — and any deallocation
decrements `used` by the full length of the block handed in, saturating at
zero. -/
theorem pool_allocate_reuse_semantics (p : PoolAllocator) (size : ℕ) :
    (p.used + size ≤ p.capacity → p.blocks = [] →
      (p.allocate size).1 = some (List.replicate size 0)) ∧
    (∀ blk rest, p.used + size ≤ p.capacity → p.blocks = blk :: rest →
      (p.allocate size).1 = some (blk ++ List.replicate (size - blk.length) 0) ∧
      (blk ++ List.replicate (size - blk.length) 0).length = max blk.length size) ∧
    (∀ b, (p.deallocate b).used = p.used - b.length) := by
  refine ⟨?_, ?_, fun b => rfl⟩
  · intro hcap hblocks
    simp only [PoolAllocator.allocate, hblocks]
    rw [if_neg (by omega)]
  · intro blk rest hcap hblocks
    constructor
    · simp only [PoolAllocator.allocate, hblocks]
      rw [if_neg (by omega)]
      by_cases hlen : blk.length < size
      · simp [hlen]
      · simp only [if_neg hlen]
        rw [Nat.sub_eq_zero_of_le (le_of_not_lt hlen)]
        simp
    · simp only [List.length_append, List.length_replicate]
      omega

/-- Witness for C10: fresh zero block, reused oversized block kept whole,
reused undersized block grown, and saturating deallocation accounting. -/
theorem pool_allocate_reuse_semantics_witness :
    ((PoolAllocator.new 10).allocate 3).1 = some [0, 0, 0] ∧
    (((PoolAllocator.new 10).deallocate [5, 5]).allocate 3).1 = some [5, 5, 0] ∧
    (((PoolAllocator.new 10).deallocate [5, 5, 5, 5]).allocate 3).1 = some [5, 5, 5, 5] ∧
    (((PoolAllocator.new 10).allocate 3).2.deallocate [7, 7, 7, 7, 7]).used = 0 := by
  refine ⟨?_, ?_, ?_, ?_⟩
  · exact (pool_allocate_reuse_semantics (PoolAllocator.new 10) 3).1 (by decide) rfl
  · have h := ((pool_allocate_reuse_semantics ((PoolAllocator.new 10).deallocate [5, 5]) 3).2.1
      [5, 5] [] (by decide) rfl).1
    simpa using h
  · have h := ((pool_allocate_reuse_semantics
      ((PoolAllocator.new 10).deallocate [5, 5, 5, 5]) 3).2.1
      [5, 5, 5, 5] [] (by decide) rfl).1
    simpa using h
  · have h := (pool_allocate_reuse_semantics ((PoolAllocator.new 10).allocate 3).2 0).2.2
      [7, 7, 7, 7, 7]
    simpa using h

/-! ## C4, C8: rayon metrics -/

/-- C4: `reset_metrics` and `snapshot_and_reset` fail with `ActiveWorkers n`
exactly when the active-worker count n is non-zero at call time; with no
active workers they succeed, zero all counters, and restart the observation
window at the current instant. -/
theorem metrics_reset_requires_idle (m : RayonMetrics) (now : ℕ) :
    (m.active_workers ≠ 0 →
      reset_metrics m now = .error (.ActiveWorkers m.active_workers) ∧
      snapshot_and_reset m now = .error (.ActiveWorkers m.active_workers)) ∧
    (m.active_workers = 0 →
      reset_metrics m now = .ok (m.reset_unchecked now) ∧
      snapshot_and_reset m now =
        .ok (RayonPoolSnapshot.from_metrics m now, m.reset_unchecked now) ∧
      (m.reset_unchecked now).tasks_started = 0 ∧
      (m.reset_unchecked now).tasks_completed = 0 ∧
      (m.reset_unchecked now).busy_time_nanos = 0 ∧
      (m.reset_unchecked now).max_active_workers = 0 ∧
      (m.reset_unchecked now).max_threads_observed = 0 ∧
      (m.reset_unchecked now).max_task_time_nanos = 0 ∧
      (m.reset_unchecked now).observation_start = now) := by
  constructor
  · intro h
    exact ⟨by simp [reset_metrics, h], by simp [snapshot_and_reset, h]⟩
  · intro h
    exact ⟨by simp [reset_metrics, h], by simp [snapshot_and_reset, h],
      rfl, rfl, rfl, rfl, rfl, rfl, rfl⟩

/-- Witness for C4: with one live guard the reset is refused with
`ActiveWorkers 1`; on the idle initial state it succeeds. -/
theorem metrics_reset_requires_idle_witness :
    reset_metrics (RayonTaskGuard.new (RayonMetrics.init 0) 4) 5 =
      .error (.ActiveWorkers 1) ∧
    reset_metrics (RayonMetrics.init 0) 5 = .ok ((RayonMetrics.init 0).reset_unchecked 5) := by
  constructor
  · exact ((metrics_reset_requires_idle (RayonTaskGuard.new (RayonMetrics.init 0) 4) 5).1
      (by decide)).1
  · exact ((metrics_reset_requires_idle (RayonMetrics.init 0) 5).2 rfl).1

lemma guard_new_active (m : RayonMetrics) (t : ℕ) :
    (RayonTaskGuard.new m t).active_workers = (m.active_workers + 1) % U64MOD := by
  cases m; rfl

lemma guard_new_started (m : RayonMetrics) (t : ℕ) :
    (RayonTaskGuard.new m t).tasks_started = (m.tasks_started + 1) % U64MOD := by
  cases m; rfl

lemma guard_new_completed (m : RayonMetrics) (t : ℕ) :
    (RayonTaskGuard.new m t).tasks_completed = m.tasks_completed := by
  cases m; rfl

lemma guard_drop_active (m : RayonMetrics) (d : ℕ) :
    (RayonTaskGuard.drop m d).active_workers =
      (m.active_workers + (U64MAX)) % U64MOD := by
  cases m; rfl

lemma guard_drop_started (m : RayonMetrics) (d : ℕ) :
    (RayonTaskGuard.drop m d).tasks_started = m.tasks_started := by
  cases m; rfl

lemma guard_drop_completed (m : RayonMetrics) (d : ℕ) :
    (RayonTaskGuard.drop m d).tasks_completed = (m.tasks_completed + 1) % U64MOD := by
  cases m; rfl

lemma run_guard_step (m : RayonMetrics) (p : ℕ × ℕ) (hA : m.active_workers = 0) :
    (m.run_guard p).active_workers = 0 ∧
    (m.run_guard p).tasks_started = (m.tasks_started + 1) % U64MOD ∧
    (m.run_guard p).tasks_completed = (m.tasks_completed + 1) % U64MOD := by
  unfold RayonMetrics.run_guard
  refine ⟨?_, ?_, ?_⟩
  · rw [guard_drop_active, guard_new_active, hA]
    decide
  · rw [guard_drop_started, guard_new_started]
  · rw [guard_drop_completed, guard_new_completed]

lemma run_guards_counts (ps : List (ℕ × ℕ)) :
    ∀ m : RayonMetrics, m.active_workers = 0 →
    m.tasks_started < U64MOD → m.tasks_completed < U64MOD →
    (m.run_guards ps).active_workers = 0 ∧
    (m.run_guards ps).tasks_started = (m.tasks_started + ps.length) % U64MOD ∧
    (m.run_guards ps).tasks_completed = (m.tasks_completed + ps.length) % U64MOD := by
  induction ps with
  | nil =>
    intro m hA hS hC
    rw [RayonMetrics.run_guards, List.foldl_nil]
    refine ⟨hA, ?_, ?_⟩
    · rw [List.length_nil, Nat.add_zero, Nat.mod_eq_of_lt hS]
    · rw [List.length_nil, Nat.add_zero, Nat.mod_eq_of_lt hC]
  | cons p rest ih =>
    intro m hA hS hC
    obtain ⟨g1, g2, g3⟩ := run_guard_step m p hA
    have hmod : 0 < U64MOD := by norm_num
    obtain ⟨f1, f2, f3⟩ := ih (m.run_guard p) g1
      (by rw [g2]; exact Nat.mod_lt _ hmod) (by rw [g3]; exact Nat.mod_lt _ hmod)
    rw [RayonMetrics.run_guards] at f1 f2 f3 ⊢
    rw [List.foldl_cons]
    refine ⟨f1, ?_, ?_⟩
    · rw [f2, g2, Nat.mod_add_mod, List.length_cons]
      have harith : m.tasks_started + 1 + rest.length =
          m.tasks_started + (rest.length + 1) := by omega
      rw [harith]
    · rw [f3, g3, Nat.mod_add_mod, List.length_cons]
      have harith : m.tasks_completed + 1 + rest.length =
          m.tasks_completed + (rest.length + 1) := by omega
      rw [harith]

/-- C8: after N sequential non-overlapping task guards (N below the 64-bit
counter range), the snapshot reports `total_tasks_started` and
`total_tasks_completed` equal to N, and the active-worker count is back to
zero. -/
theorem rayon_sequential_guards (ps : List (ℕ × ℕ)) (now later : ℕ)
    (h : ps.length < U64MOD) :
    (RayonPoolSnapshot.from_metrics ((RayonMetrics.init now).run_guards ps)
      later).total_tasks_started = ps.length ∧
    (RayonPoolSnapshot.from_metrics ((RayonMetrics.init now).run_guards ps)
      later).total_tasks_completed = ps.length ∧
    ((RayonMetrics.init now).run_guards ps).active_workers = 0 := by
  have hmod : 0 < U64MOD := by norm_num
  obtain ⟨hA, hS, hC⟩ := run_guards_counts ps (RayonMetrics.init now) rfl hmod hmod
  have hzs : (RayonMetrics.init now).tasks_started = 0 := rfl
  have hzc : (RayonMetrics.init now).tasks_completed = 0 := rfl
  refine ⟨?_, ?_, hA⟩
  · show ((RayonMetrics.init now).run_guards ps).tasks_started = ps.length
    rw [hS, hzs, Nat.zero_add, Nat.mod_eq_of_lt h]
  · show ((RayonMetrics.init now).run_guards ps).tasks_completed = ps.length
    rw [hC, hzc, Nat.zero_add, Nat.mod_eq_of_lt h]

/-- Witness for C8 with three sequential guards. -/
theorem rayon_sequential_guards_witness :
    (RayonPoolSnapshot.from_metrics
      ((RayonMetrics.init 0).run_guards [(4, 100), (4, 200), (2, 50)])
      1000).total_tasks_started = 3 ∧
    (RayonPoolSnapshot.from_metrics
      ((RayonMetrics.init 0).run_guards [(4, 100), (4, 200), (2, 50)])
      1000).total_tasks_completed = 3 ∧
    ((RayonMetrics.init 0).run_guards [(4, 100), (4, 200), (2, 50)]).active_workers = 0 :=
  rayon_sequential_guards [(4, 100), (4, 200), (2, 50)] 0 1000 (by simp [U64MOD])

/-! ## C1: agreement of the matmul paths

All dot-product loop variants compute the same rational sum
`∑ k, row_a[k] * col_b[k]`; the lemmas below establish this for the scalar
tail loop (`idx_sum`), the lane-accumulating SIMD loop (`lanes_loop`), and
the complete `simd_dot`. -/

lemma idx_sum_eq (f g : ℕ → Option ℚ) (F G : ℕ → ℚ) :
    ∀ (cnt k : ℕ) (s : ℚ),
    (∀ i, i < k + cnt → f i = some (F i)) →
    (∀ i, i < k + cnt → g i = some (G i)) →
    idx_sum f g (List.range' k cnt) s = some (s + ∑ i ∈ Finset.Ico k (k + cnt), F i * G i) := by
  intro cnt
  induction cnt with
  | zero =>
    intro k s _ _
    simp [idx_sum]
  | succ cnt ih =>
    intro k s hf hg
    rw [List.range'_succ]
    simp only [idx_sum, hf k (by omega), hg k (by omega)]
    rw [ih (k + 1) (s + F k * G k) (fun i hi => hf i (by omega)) (fun i hi => hg i (by omega))]
    congr 1
    rw [Finset.sum_eq_sum_Ico_succ_bot (by omega : k < k + (cnt + 1)) (fun i => F i * G i)]
    have harith : k + 1 + cnt = k + (cnt + 1) := by omega
    rw [harith]
    ring

lemma load_chunk_some {xs : List ℚ} {k w : ℕ} (h : k + w ≤ xs.length) :
    load_chunk xs k w = some ((xs.drop k).take w) := by
  unfold load_chunk
  rw [if_pos h]

lemma chunk_prod_sum : ∀ (w k : ℕ) (xs ys : List ℚ), k + w ≤ xs.length → k + w ≤ ys.length →
    (List.zipWith (· * ·) ((xs.drop k).take w) ((ys.drop k).take w)).sum =
      ∑ i ∈ Finset.Ico k (k + w), xs.getD i 0 * ys.getD i 0 := by
  intro w
  induction w with
  | zero =>
    intro k xs ys _ _
    simp
  | succ w ih =>
    intro k xs ys hx hy
    have hkx : k < xs.length := by omega
    have hky : k < ys.length := by omega
    rw [List.drop_eq_getElem_cons hkx, List.drop_eq_getElem_cons hky,
      List.take_succ_cons, List.take_succ_cons, List.zipWith_cons_cons, List.sum_cons,
      Finset.sum_eq_sum_Ico_succ_bot (by omega : k < k + (w + 1))
        (fun i => xs.getD i 0 * ys.getD i 0)]
    congr 1
    · rw [List.getD_eq_getElem _ _ hkx, List.getD_eq_getElem _ _ hky]
    · have hb : k + 1 + w = k + (w + 1) := by omega
      have hrec := ih (k + 1) xs ys (by omega) (by omega)
      rw [hb] at hrec
      exact hrec

lemma sum_zipWith_add : ∀ (as bs : List ℚ), as.length = bs.length →
    (List.zipWith (· + ·) as bs).sum = as.sum + bs.sum := by
  intro as
  induction as with
  | nil =>
    intro bs h
    cases bs with
    | nil => simp
    | cons b bs => simp at h
  | cons a as ih =>
    intro bs h
    cases bs with
    | nil => simp at h
    | cons b bs =>
      simp only [List.zipWith_cons_cons, List.sum_cons]
      rw [ih bs (by simpa using h)]
      ring

lemma lanes_loop_eq (w n : ℕ) (xs ys : List ℚ) (hx : n ≤ xs.length) (hy : n ≤ ys.length) :
    ∀ (chunks k : ℕ) (lanes : List ℚ), lanes.length = w + 1 →
    k + chunks * (w + 1) ≤ n →
    lanes_loop w n xs ys chunks k lanes =
      some (lanes.sum + ∑ i ∈ Finset.Ico k n, xs.getD i 0 * ys.getD i 0) := by
  intro chunks
  induction chunks with
  | zero =>
    intro k lanes _ hk
    simp only [lanes_loop]
    have hxs : ∀ i, i < k + (n - k) → (fun i => xs[i]?) i = some (xs.getD i 0) := by
      intro i hi
      have hilen : i < xs.length := by omega
      simp only [List.getElem?_eq_getElem hilen, List.getD_eq_getElem _ _ hilen]
    have hys : ∀ i, i < k + (n - k) → (fun i => ys[i]?) i = some (ys.getD i 0) := by
      intro i hi
      have hilen : i < ys.length := by omega
      simp only [List.getElem?_eq_getElem hilen, List.getD_eq_getElem _ _ hilen]
    rw [idx_sum_eq _ _ (fun i => xs.getD i 0) (fun i => ys.getD i 0) (n - k) k lanes.sum hxs hys]
    have harith : k + (n - k) = n := by omega
    rw [harith]
  | succ c ih =>
    intro k lanes hlen hk
    have hexp : (c + 1) * (w + 1) = c * (w + 1) + (w + 1) := by ring
    rw [hexp] at hk
    have hg : k + (w + 1) ≤ n := by omega
    have hcx := load_chunk_some (le_trans hg hx)
    have hcy := load_chunk_some (le_trans hg hy)
    simp only [lanes_loop, hcx, hcy]
    have hcxlen : ((xs.drop k).take (w + 1)).length = w + 1 := by
      rw [List.length_take, List.length_drop]
      omega
    have hcylen : ((ys.drop k).take (w + 1)).length = w + 1 := by
      rw [List.length_take, List.length_drop]
      omega
    have hplen : (List.zipWith (· * ·) ((xs.drop k).take (w + 1))
        ((ys.drop k).take (w + 1))).length = w + 1 := by
      rw [List.length_zipWith, hcxlen, hcylen, min_self]
    have hllen : (List.zipWith (· + ·) lanes (List.zipWith (· * ·) ((xs.drop k).take (w + 1))
        ((ys.drop k).take (w + 1)))).length = w + 1 := by
      rw [List.length_zipWith, hlen, hplen, min_self]
    rw [ih (k + (w + 1)) _ hllen (by omega)]
    congr 1
    rw [sum_zipWith_add _ _ (by rw [hlen, hplen]),
      chunk_prod_sum (w + 1) k xs ys (le_trans hg hx) (le_trans hg hy),
      ← Finset.sum_Ico_consecutive (fun i => xs.getD i 0 * ys.getD i 0)
        (by omega : k ≤ k + (w + 1)) hg]
    ring

lemma simd_dot_eq (w n : ℕ) (xs ys : List ℚ) (hx : n ≤ xs.length) (hy : n ≤ ys.length) :
    simd_dot w n xs ys = some (∑ i ∈ Finset.range n, xs.getD i 0 * ys.getD i 0) := by
  unfold simd_dot
  rw [lanes_loop_eq w n xs ys hx hy (n / (w + 1)) 0 _ (List.length_replicate _ _)
    (by simpa using Nat.div_mul_le_self n (w + 1))]
  rw [Finset.range_eq_Ico]
  simp

lemma mapM_option_eq_map {α β : Type} (f : α → Option β) (g : α → β) :
    ∀ l : List α, (∀ x ∈ l, f x = some (g x)) → l.mapM f = some (l.map g) := by
  intro l
  induction l with
  | nil => intro _; rfl
  | cons a l ih =>
    intro h
    rw [List.mapM_cons, h a (by simp), ih (fun x hx => h x (by simp [hx]))]
    rfl

lemma range_mapM_eq {β : Type} (f : ℕ → Option β) (g : ℕ → β) (n : ℕ)
    (h : ∀ i, i < n → f i = some (g i)) :
    (List.range n).mapM f = some ((List.range n).map g) :=
  mapM_option_eq_map f g _ (fun x hx => h x (by simpa using hx))

lemma list_eq_map_range_getD (l : List ℚ) :
    (List.range l.length).map (fun j => l.getD j 0) = l := by
  apply List.ext_getElem
  · simp
  · intro i h1 h2
    simp [List.getD_eq_getElem _ _ h2, List.getElem?_eq_getElem h2]

lemma getD_replicate_zero (n j : ℕ) : (List.replicate n (0 : ℚ)).getD j 0 = 0 := by
  by_cases h : j < n
  · rw [List.getD_eq_getElem _ _ (by simpa using h)]
    simp
  · rw [List.getD_eq_default _ _ (by simpa using not_lt.mp h)]

/-- The whole `matmul` accumulation loop over the zipped `(val_a, row_b)`
pairs, with a generalized accumulator. -/
lemma matmul_fold_eq : ∀ (pairs : List (ℚ × List ℚ)) (acc : List ℚ),
    (∀ p ∈ pairs, p.2.length = acc.length) →
    pairs.foldl (fun out_row p => List.zipWith (fun o val_b => o + p.1 * val_b) out_row p.2) acc =
      (List.range acc.length).map
        (fun j => acc.getD j 0 + ((pairs.map (fun p => p.1 * p.2.getD j 0)).sum)) := by
  intro pairs
  induction pairs with
  | nil =>
    intro acc _
    simp only [List.foldl_nil, List.map_nil, List.sum_nil, add_zero]
    exact (list_eq_map_range_getD acc).symm
  | cons p rest ih =>
    intro acc hlen
    rw [List.foldl_cons]
    have hzl : (List.zipWith (fun o v => o + p.1 * v) acc p.2).length = acc.length := by
      rw [List.length_zipWith, hlen p (by simp), min_self]
    have hlen2 : ∀ q ∈ rest, q.2.length = (List.zipWith (fun o v => o + p.1 * v) acc p.2).length := by
      intro q hq
      rw [hzl]
      exact hlen q (by simp [hq])
    rw [ih _ hlen2, hzl]
    apply List.map_congr_left
    intro j hj
    have hj' : j < acc.length := by simpa using hj
    have hget : (List.zipWith (fun o v => o + p.1 * v) acc p.2).getD j 0 =
        acc.getD j 0 + p.1 * p.2.getD j 0 := by
      rw [List.getD_eq_getElem _ _ (by rw [hzl]; exact hj'), List.getElem_zipWith,
        List.getD_eq_getElem _ _ hj',
        List.getD_eq_getElem _ _ (by rw [hlen p (by simp)]; exact hj')]
    rw [hget, List.map_cons, List.sum_cons]
    ring

lemma zip_mul_sum : ∀ (xs : List ℚ) (ms : List (List ℚ)) (j : ℕ), xs.length = ms.length →
    ((xs.zip ms).map (fun p => p.1 * p.2.getD j 0)).sum =
      ∑ k ∈ Finset.range ms.length, xs.getD k 0 * (ms.getD k []).getD j 0 := by
  intro xs
  induction xs with
  | nil =>
    intro ms j h
    cases ms with
    | nil => simp
    | cons m ms => simp at h
  | cons x xs ih =>
    intro ms j h
    cases ms with
    | nil => simp at h
    | cons m ms =>
      simp only [List.zip_cons_cons, List.map_cons, List.sum_cons]
      rw [ih ms j (by simpa using h), List.length_cons, Finset.sum_range_succ']
      simp only [List.getD_cons_succ, List.getD_cons_zero]
      ring

/-- Row `row_a` of `matmul`'s output, in closed form, for rectangular `b`. -/
lemma matmul_row_eq (b : Matrix) (cols_b : ℕ) (row_a : List ℚ)
    (hb : ∀ row ∈ b, row.length = cols_b) (hlen : row_a.length = b.length) :
    matmul_row b cols_b row_a =
      (List.range cols_b).map
        (fun j => ∑ k ∈ Finset.range b.length, row_a.getD k 0 * (b.getD k []).getD j 0) := by
  unfold matmul_row
  have hpairs : ∀ p ∈ row_a.zip b, p.2.length = (List.replicate cols_b (0 : ℚ)).length := by
    intro p hp
    rw [List.length_replicate]
    exact hb p.2 (List.of_mem_zip hp).2
  rw [matmul_fold_eq (row_a.zip b) _ hpairs, List.length_replicate]
  apply List.map_congr_left
  intro j _
  rw [getD_replicate_zero, zero_add, zip_mul_sum _ _ _ hlen]

/-- The common value of every matmul path on valid compatible inputs:
cell (i, j) is the dot product of row i of `a` with column j of `b`. -/
def matmul_spec (a b : Matrix) : Matrix :=
  (List.range a.length).map (fun i =>
    (List.range (b.headD []).length).map (fun j =>
      ∑ k ∈ Finset.range b.length, mGet a i k * mGet b k j))

lemma headD_mem {m : Matrix} (h : m ≠ []) : m.headD [] ∈ m := by
  cases m with
  | nil => exact absurd rfl h
  | cons a l => exact List.mem_cons_self a l

lemma matmul_eq_spec (a b : Matrix) (ra ca rb cb : ℕ)
    (hva : validate_matrix a = .ok (ra, ca)) (hvb : validate_matrix b = .ok (rb, cb))
    (hc : ca = rb) :
    matmul a b = .ok (matmul_spec a b) := by
  obtain ⟨hra, hapos, hcapos, harows⟩ := validate_matrix_ok hva
  obtain ⟨hrb, hbpos, hcbpos, hbrows⟩ := validate_matrix_ok hvb
  have hhead : (b.headD []).length = cb :=
    hbrows _ (headD_mem (by intro hnil; rw [hnil] at hbpos; simp at hbpos))
  simp only [matmul, hva, hvb]
  rw [if_neg (by omega)]
  congr 1
  unfold matmul_spec
  rw [hhead]
  apply List.ext_getElem
  · simp
  · intro i h1 h2
    have hia : i < a.length := by simpa using h2
    rw [List.getElem_map, List.getElem_map, List.getElem_range]
    rw [matmul_row_eq b cb a[i] hbrows
      (by rw [harows _ (a.getElem_mem hia)]; omega)]
    apply List.map_congr_left
    intro j _
    apply Finset.sum_congr rfl
    intro k _
    simp only [mGet]
    rw [List.getD_eq_getElem a _ hia]

lemma simd_matmul_eq_spec (a b : Matrix) (ra ca rb cb : ℕ)
    (hva : validate_matrix a = .ok (ra, ca)) (hvb : validate_matrix b = .ok (rb, cb))
    (hc : ca = rb) :
    simd_matmul a b = .ok (matmul_spec a b) := by
  obtain ⟨hra, hapos, hcapos, harows⟩ := validate_matrix_ok hva
  obtain ⟨hrb, hbpos, hcbpos, hbrows⟩ := validate_matrix_ok hvb
  subst hra
  subst hrb
  have hbnil : b ≠ [] := by
    intro hn
    rw [hn] at hbpos
    simp at hbpos
  have hhead : (b.headD []).length = cb := hbrows _ (headD_mem hbnil)
  have hbt : transpose b =
      .ok ((List.range cb).map (fun c => (List.range b.length).map (fun r => mGet b r c))) := by
    simp only [transpose, hvb]
  simp only [simd_matmul, hva, hvb]
  rw [if_neg (by omega)]
  simp only [hbt]
  have hcell : ∀ row_a ∈ a,
      ((List.range cb).map (fun c => (List.range b.length).map
        (fun r => mGet b r c))).mapM (fun bt_row => simd_dot 1 ca row_a bt_row) =
      some (((List.range cb).map (fun c => (List.range b.length).map (fun r => mGet b r c))).map
        (fun bt_row => ∑ i ∈ Finset.range ca, row_a.getD i 0 * bt_row.getD i 0)) := by
    intro row_a hrow
    apply mapM_option_eq_map
    intro bt_row hbtrow
    simp only [List.mem_map, List.mem_range] at hbtrow
    obtain ⟨c, _, hceq⟩ := hbtrow
    apply simd_dot_eq
    · rw [harows row_a hrow]
    · rw [← hceq]
      simp
      omega
  simp only [mapM_option_eq_map _ _ a hcell]
  congr 1
  unfold matmul_spec
  rw [hhead]
  apply List.ext_getElem
  · simp
  · intro i h1 h2
    have hia : i < a.length := by simpa using h1
    rw [List.getElem_map, List.getElem_map, List.getElem_range, List.map_map]
    apply List.map_congr_left
    intro j hj
    have hjcb : j < cb := by simpa using hj
    simp only [Function.comp]
    apply Finset.sum_congr (by rw [hc])
    intro k hk
    have hkb : k < b.length := by simpa using hk
    simp only [mGet]
    rw [List.getD_eq_getElem a _ hia, getD_map_range _ hkb]

lemma build_bt_eq (b : Matrix) (cb : ℕ) (hbrows : ∀ row ∈ b, row.length = cb) :
    build_bt b b.length cb =
      some ((List.range cb).map (fun j => (List.range b.length).map (fun i => mGet b i j))) := by
  unfold build_bt
  apply range_mapM_eq
  intro j hj
  apply range_mapM_eq
  intro i hi
  have hjlen : j < b[i].length := by
    rw [hbrows _ (b.getElem_mem hi)]
    exact hj
  rw [List.getElem?_eq_getElem hi]
  show (b[i])[j]? = some (mGet b i j)
  rw [List.getElem?_eq_getElem hjlen]
  congr 1
  simp only [mGet]
  rw [List.getD_eq_getElem b _ hi, List.getD_eq_getElem _ _ hjlen]

lemma simd_kernel_eq_spec (w : ℕ) (a b : Matrix) (ra ca rb cb : ℕ)
    (hva : validate_matrix a = .ok (ra, ca)) (hvb : validate_matrix b = .ok (rb, cb))
    (hc : ca = rb) :
    simd_kernel_matmul w a b = .ok (matmul_spec a b) := by
  obtain ⟨hra, hapos, hcapos, harows⟩ := validate_matrix_ok hva
  obtain ⟨hrb, hbpos, hcbpos, hbrows⟩ := validate_matrix_ok hvb
  subst hra
  subst hrb
  have hanil : a ≠ [] := by
    intro hn; rw [hn] at hapos; simp at hapos
  have hbnil : b ≠ [] := by
    intro hn; rw [hn] at hbpos; simp at hbpos
  have hahead : (a.headD []).length = ca := harows _ (headD_mem hanil)
  have hbhead : (b.headD []).length = cb := hbrows _ (headD_mem hbnil)
  simp only [simd_kernel_matmul, hahead, hbhead]
  rw [if_neg (by omega), if_neg (by
    push_neg
    refine ⟨by omega, ?_⟩
    intro hn
    rw [List.isEmpty_iff] at hn
    rw [hn] at hbhead
    simp at hbhead
    omega), if_neg (by omega)]
  simp only [build_bt_eq b cb hbrows]
  have hcells : (List.range a.length).mapM (fun i => (List.range cb).mapM (fun j =>
      simd_dot w ca (a.getD i [])
        (((List.range cb).map (fun j => (List.range b.length).map
          (fun i => mGet b i j))).getD j []))) =
      some ((List.range a.length).map (fun i => (List.range cb).map (fun j =>
        ∑ k ∈ Finset.range b.length, mGet a i k * mGet b k j))) := by
    apply range_mapM_eq
    intro i hi
    apply range_mapM_eq
    intro j hj
    rw [getD_map_range _ hj]
    have hrowlen : (a.getD i []).length = ca := by
      rw [List.getD_eq_getElem a _ hi]
      exact harows _ (a.getElem_mem hi)
    rw [simd_dot_eq w ca _ _ (by omega) (by simp; omega)]
    congr 1
    apply Finset.sum_congr (by rw [hc])
    intro k hk
    have hkb : k < b.length := by simpa using hk
    rw [getD_map_range _ hkb]
    rfl
  rw [hcells]
  unfold matmul_spec
  rw [hbhead]

lemma optimal_fallback_eq_spec (a b : Matrix) (ra ca rb cb : ℕ)
    (hva : validate_matrix a = .ok (ra, ca)) (hvb : validate_matrix b = .ok (rb, cb))
    (hc : ca = rb) :
    optimal_matmul_fallback a b = .ok (matmul_spec a b) := by
  obtain ⟨hra, hapos, hcapos, harows⟩ := validate_matrix_ok hva
  obtain ⟨hrb, hbpos, hcbpos, hbrows⟩ := validate_matrix_ok hvb
  subst hra
  subst hrb
  have hanil : a ≠ [] := by
    intro hn; rw [hn] at hapos; simp at hapos
  have hbnil : b ≠ [] := by
    intro hn; rw [hn] at hbpos; simp at hbpos
  have hahead : (a.headD []).length = ca := harows _ (headD_mem hanil)
  have hbhead : (b.headD []).length = cb := hbrows _ (headD_mem hbnil)
  simp only [optimal_matmul_fallback, hahead, hbhead]
  rw [if_neg (by omega), if_neg (by omega), if_neg (by omega)]
  have hcells : (List.range a.length).mapM (fun i => (List.range cb).mapM (fun j =>
      idx_sum (fun k => a[i]?.bind (fun row => row[k]?))
              (fun k => b[k]?.bind (fun row => row[j]?))
              (List.range' 0 ca) 0)) =
      some ((List.range a.length).map (fun i => (List.range cb).map (fun j =>
        ∑ k ∈ Finset.range b.length, mGet a i k * mGet b k j))) := by
    apply range_mapM_eq
    intro i hi
    apply range_mapM_eq
    intro j hj
    have hrowlen : a[i].length = ca := harows _ (a.getElem_mem hi)
    have hf : ∀ k, k < 0 + ca → a[i]?.bind (fun row => row[k]?) = some (mGet a i k) := by
      intro k hk
      have hk2 : k < a[i].length := by omega
      rw [List.getElem?_eq_getElem hi]
      show (a[i])[k]? = some (mGet a i k)
      rw [List.getElem?_eq_getElem hk2]
      congr 1
      simp only [mGet]
      rw [List.getD_eq_getElem a _ hi, List.getD_eq_getElem _ _ hk2]
    have hg : ∀ k, k < 0 + ca → b[k]?.bind (fun row => row[j]?) = some (mGet b k j) := by
      intro k hk
      have hkb : k < b.length := by omega
      have hj2 : j < b[k].length := by
        rw [hbrows _ (b.getElem_mem hkb)]
        exact List.mem_range.mp (by simpa using hj)
      rw [List.getElem?_eq_getElem hkb]
      show (b[k])[j]? = some (mGet b k j)
      rw [List.getElem?_eq_getElem hj2]
      congr 1
      simp only [mGet]
      rw [List.getD_eq_getElem b _ hkb, List.getD_eq_getElem _ _ hj2]
    rw [idx_sum_eq _ _ (fun k => mGet a i k) (fun k => mGet b k j) ca 0 0 hf hg]
    rw [zero_add, Nat.zero_add, ← Finset.range_eq_Ico, hc]
  rw [hcells]
  unfold matmul_spec
  rw [hbhead]

lemma optimal_matmul_eq_spec (lvl : SimdLevel) (a b : Matrix) (ra ca rb cb : ℕ)
    (hva : validate_matrix a = .ok (ra, ca)) (hvb : validate_matrix b = .ok (rb, cb))
    (hc : ca = rb) :
    optimal_matmul lvl a b = .ok (matmul_spec a b) := by
  cases lvl with
  | avx512f => exact simd_kernel_eq_spec 7 a b ra ca rb cb hva hvb hc
  | avx2 => exact simd_kernel_eq_spec 3 a b ra ca rb cb hva hvb hc
  | neon => exact simd_kernel_eq_spec 1 a b ra ca rb cb hva hvb hc
  | basic => exact optimal_fallback_eq_spec a b ra ca rb cb hva hvb hc

lemma validate_matrix_error_validation {m : Matrix} {e : ForziumError}
    (h : validate_matrix m = .error e) : ∃ msg, e = .Validation msg := by
  unfold validate_matrix at h
  by_cases h1 : m.isEmpty ∨ (m.headD []).isEmpty
  · rw [if_pos h1, Except.error.injEq] at h
    exact ⟨_, h.symm⟩
  · rw [if_neg h1] at h
    by_cases h2 : m.any (fun r => r.length ≠ (m.headD []).length)
    · rw [if_pos h2, Except.error.injEq] at h
      exact ⟨_, h.symm⟩
    · rw [if_neg h2] at h
      exact Except.noConfusion h

lemma matmul_mismatch_errors (a b : Matrix) (ra ca rb cb : ℕ)
    (hva : validate_matrix a = .ok (ra, ca)) (hvb : validate_matrix b = .ok (rb, cb))
    (hc : ca ≠ rb) :
    matmul a b = .error (.Validation "shape mismatch") ∧
    simd_matmul a b = .error (.Validation "shape mismatch") ∧
    ∀ lvl, optimal_matmul lvl a b =
      .error (.Validation "incompatible dimensions for matrix multiplication") := by
  obtain ⟨hra, hapos, hcapos, harows⟩ := validate_matrix_ok hva
  obtain ⟨hrb, hbpos, hcbpos, hbrows⟩ := validate_matrix_ok hvb
  subst hra
  subst hrb
  have hanil : a ≠ [] := by
    intro hn; rw [hn] at hapos; simp at hapos
  have hbnil : b ≠ [] := by
    intro hn; rw [hn] at hbpos; simp at hbpos
  have hahead : (a.headD []).length = ca := harows _ (headD_mem hanil)
  have hbhead : (b.headD []).length = cb := hbrows _ (headD_mem hbnil)
  refine ⟨?_, ?_, ?_⟩
  · simp only [matmul, hva, hvb]
    rw [if_pos hc]
  · simp only [simd_matmul, hva, hvb]
    rw [if_pos hc]
  · have hkernel : ∀ w, simd_kernel_matmul w a b =
        .error (.Validation "incompatible dimensions for matrix multiplication") := by
      intro w
      simp only [simd_kernel_matmul, hahead, hbhead]
      rw [if_neg (by omega), if_neg (by
        push_neg
        refine ⟨by omega, ?_⟩
        intro hn
        rw [List.isEmpty_iff] at hn
        rw [hn] at hbhead
        simp at hbhead
        omega), if_pos hc]
    have hfb : optimal_matmul_fallback a b =
        .error (.Validation "incompatible dimensions for matrix multiplication") := by
      simp only [optimal_matmul_fallback, hahead]
      rw [if_neg (by omega), if_neg (by omega), if_pos hc]
    intro lvl
    cases lvl with
    | avx512f => exact hkernel 7
    | avx2 => exact hkernel 3
    | neon => exact hkernel 1
    | basic => exact hfb

/-- C1 (amended): for every pair of non-empty rectangular matrices with
`cols(a) = rows(b)`, the scalar/parallel path (`matmul`), the SSE path
(`simd_matmul`), and `optimal_matmul` at every CPU feature level all succeed
with the same rational-valued result (hence agree within any floating-point
tolerance); on shape-incompatible valid inputs each path fails with a
Validation error; and on inputs rejected by `validate_matrix` (empty or
ragged), `matmul` and `simd_matmul` return that Validation error.
(`optimal_matmul` does not validate raggedness — see the counterexample.) -/
theorem matmul_paths_agreement (a b : Matrix) :
    (∀ ra ca rb cb, validate_matrix a = .ok (ra, ca) → validate_matrix b = .ok (rb, cb) →
      (ca = rb →
        matmul a b = .ok (matmul_spec a b) ∧
        simd_matmul a b = .ok (matmul_spec a b) ∧
        ∀ lvl, optimal_matmul lvl a b = .ok (matmul_spec a b)) ∧
      (ca ≠ rb →
        matmul a b = .error (.Validation "shape mismatch") ∧
        simd_matmul a b = .error (.Validation "shape mismatch") ∧
        ∀ lvl, optimal_matmul lvl a b =
          .error (.Validation "incompatible dimensions for matrix multiplication"))) ∧
    (∀ e, validate_matrix a = .error e →
      matmul a b = .error e ∧ simd_matmul a b = .error e ∧ ∃ msg, e = .Validation msg) ∧
    (∀ ra ca e, validate_matrix a = .ok (ra, ca) → validate_matrix b = .error e →
      matmul a b = .error e ∧ simd_matmul a b = .error e ∧ ∃ msg, e = .Validation msg) := by
  refine ⟨?_, ?_, ?_⟩
  · intro ra ca rb cb hva hvb
    constructor
    · intro hc
      exact ⟨matmul_eq_spec a b ra ca rb cb hva hvb hc,
        simd_matmul_eq_spec a b ra ca rb cb hva hvb hc,
        fun lvl => optimal_matmul_eq_spec lvl a b ra ca rb cb hva hvb hc⟩
    · intro hc
      exact matmul_mismatch_errors a b ra ca rb cb hva hvb hc
  · intro e he
    exact ⟨by simp only [matmul, he], by simp only [simd_matmul, he],
      validate_matrix_error_validation he⟩
  · intro ra ca e hva he
    exact ⟨by simp only [matmul, hva, he], by simp only [simd_matmul, hva, he],
      validate_matrix_error_validation he⟩

/-- Witness for C1 at concrete 2×2 matrices: all paths return the same
product. -/
theorem matmul_paths_agreement_witness :
    matmul [[1, 2], [3, 4]] [[5, 6], [7, 8]] = .ok [[19, 22], [43, 50]] ∧
    simd_matmul [[1, 2], [3, 4]] [[5, 6], [7, 8]] = .ok [[19, 22], [43, 50]] ∧
    optimal_matmul .avx512f [[1, 2], [3, 4]] [[5, 6], [7, 8]] = .ok [[19, 22], [43, 50]] ∧
    optimal_matmul .avx2 [[1, 2], [3, 4]] [[5, 6], [7, 8]] = .ok [[19, 22], [43, 50]] ∧
    optimal_matmul .neon [[1, 2], [3, 4]] [[5, 6], [7, 8]] = .ok [[19, 22], [43, 50]] ∧
    optimal_matmul .basic [[1, 2], [3, 4]] [[5, 6], [7, 8]] = .ok [[19, 22], [43, 50]] := by
  obtain ⟨h1, h2, h3⟩ :=
    ((matmul_paths_agreement [[1, 2], [3, 4]] [[5, 6], [7, 8]]).1 2 2 2 2 rfl rfl).1 rfl
  have hs : matmul_spec [[1, 2], [3, 4]] [[5, 6], [7, 8]] = [[19, 22], [43, 50]] := by
    simp [matmul_spec, mGet, Finset.sum_range_succ, List.range_succ, List.range_zero]
    norm_num
  exact ⟨by rw [h1, hs], by rw [h2, hs], by rw [h3 .avx512f, hs], by rw [h3 .avx2, hs],
    by rw [h3 .neon, hs], by rw [h3 .basic, hs]⟩

/-- Counterexample to C1 as stated: on the ragged (invalid) input
`a = [[1,2],[3]]`, `matmul` and `simd_matmul` return the Validation error,
but `optimal_matmul` panics (out-of-bounds access) at every CPU feature level
instead of failing with a Validation error; moreover its scalar fallback
accepts `b = [[]]` (an invalid matrix) and returns a result. -/
theorem matmul_paths_claim_cex :
    matmul [[1, 2], [3]] [[1], [1]] = .error (.Validation "ragged tensor") ∧
    simd_matmul [[1, 2], [3]] [[1], [1]] = .error (.Validation "ragged tensor") ∧
    optimal_matmul .avx512f [[1, 2], [3]] [[1], [1]] = .panic ∧
    optimal_matmul .avx2 [[1, 2], [3]] [[1], [1]] = .panic ∧
    optimal_matmul .neon [[1, 2], [3]] [[1], [1]] = .panic ∧
    optimal_matmul .basic [[1, 2], [3]] [[1], [1]] = .panic ∧
    optimal_matmul .basic [[1]] [[]] = .ok [[]] := by
  decide

/-! ## C3, C5: routing -/

/-- C3: the pattern `/users/\x7bid:int\x7d/items/\x7bname\x7d` parses into the
expected segments; a request for `users/42/items/hat` dispatches to the
registered handler with captured params `["42", "hat"]`; a request for
`users/not-int/items/hat` yields the structured 422 validation error citing
location `["path", "id"]` with message and type, and does so regardless of
any later candidate routes (`rest` is arbitrary). -/
theorem route_int_param_dispatch_and_422 (f : ℕ → List String → HttpResponse)
    (hIdx : ℕ) (rest : List RouteEntry) :
    parse_pattern "/users/\x7bid:int\x7d/items/\x7bname\x7d" =
      some [.Static "users", .Param "id" .int, .Static "items", .Param "name" .str] ∧
    handle_request f
      (some ({ pattern := [.Static "users", .Param "id" .int, .Static "items",
        .Param "name" .str], handler := hIdx } :: rest)) true "users/42/items/hat" =
      f hIdx ["42", "hat"] ∧
    handle_request f
      (some ({ pattern := [.Static "users", .Param "id" .int, .Static "items",
        .Param "name" .str], handler := hIdx } :: rest)) true "users/not-int/items/hat" =
      json_response 422 (.obj [("detail", .arr [.obj
        [("loc", .arr [.str "path", .str "id"]),
         ("msg", .str "value is not a valid integer"),
         ("type", .str "type_error.integer")]])]) := by
  refine ⟨by decide, by rfl, by rfl⟩

lemma dispatch_loop_all_miss (f : ℕ → List String → HttpResponse) :
    ∀ (rs : List RouteEntry) (segs : List String),
    (∀ r ∈ rs, match_route r.pattern segs = .Miss) → dispatch_loop f rs segs = none := by
  intro rs
  induction rs with
  | nil => intro segs _; rfl
  | cons r rest ih =>
    intro segs h
    simp only [dispatch_loop, h r (by simp)]
    exact ih segs (fun q hq => h q (by simp [hq]))

/-- C5 (amended): a GET request to `/health`, `/ready` or `/live` receives the
fixed `200 \x7b"status":"ok"\x7d` response provided no registered route for the
method matches the request path — in particular with zero registered routes
(an empty route list, or no entry at all for the method). -/
theorem health_endpoints_fallback (f : ℕ → List String → HttpResponse)
    (routes : List RouteEntry) (path : String)
    (hpath : path = "/health" ∨ path = "/ready" ∨ path = "/live")
    (hmiss : ∀ r ∈ routes, match_route r.pattern
      ((rust_split '/' (trimSlashes path)).filter (fun s => s ≠ "")) = .Miss) :
    handle_request f (some routes) true path =
      { status := 200, content_type := "application/json"
        body := .raw "\x7b\"status\":\"ok\"\x7d" } ∧
    handle_request f none true path =
      { status := 200, content_type := "application/json"
        body := .raw "\x7b\"status\":\"ok\"\x7d" } := by
  have hdl := dispatch_loop_all_miss f routes _ hmiss
  constructor
  · simp only [handle_request, hdl]
    rw [if_pos ⟨trivial, hpath⟩]
  · simp only [handle_request]
    rw [if_pos ⟨trivial, hpath⟩]

/-- Witness for C5 (amended) with zero registered routes. -/
theorem health_endpoints_fallback_witness :
    handle_request (fun _ _ => json_response 500 (.obj [])) (some []) true "/health" =
      { status := 200, content_type := "application/json"
        body := .raw "\x7b\"status\":\"ok\"\x7d" } :=
  (health_endpoints_fallback (fun _ _ => json_response 500 (.obj [])) [] "/health"
    (Or.inl rfl) (by intro r hr; simp at hr)).1

/-- Counterexample to C5 as stated: with a registered GET route whose pattern
`/\x7bx\x7d` matches the path, `GET /health` is dispatched to that route's
handler — here one answering 500 — rather than receiving the fixed 200
response, so the health fallback does not hold "regardless of which routes
are registered". -/
theorem health_endpoints_claim_cex :
    (handle_request (fun _ _ => json_response 500 (.obj []))
      (some [{ pattern := [.Param "x" .str], handler := 0 }]) true "/health").status = 500 ∧
    (handle_request (fun _ _ => json_response 500 (.obj []))
      (some [{ pattern := [.Param "x" .str], handler := 0 }]) true "/health").status ≠ 200 := by
  exact ⟨rfl, by decide⟩

end Forzium
